import Mathlib

/-!
Verification of the pagong content rendering and templating engine.

The development shallowly embeds the core of the repository: the heading
anchor allocator and HTML renderer of `src/html.rs`, the heading adaptor of
`src/adaptor.rs`, and the template rule parser and template engine of
`src/template.rs` together with their helpers from `src/utils.rs`.
Machine strings are modelled as Lean `String`/`List Char` (the source works
on UTF-8 bytes; all concrete inputs below are ASCII, where the two views
coincide), machine integers as `Nat`, fallible or diverging code through
`Option`/`Except`, and the file system as an explicit oracle function.
-/

set_option linter.unusedVariables false

namespace Pagong

/-! ## Decimal formatting

Model of the decimal rendering of an unsigned machine integer performed by
the standard formatter (`format!("{}", n)` / `write!(..., "{}", n)`). -/

/-- Fueled digit recursion: with fuel above the value this is the usual
divide-by-ten digit expansion (`natReprAux_fuel` below shows the fuel is
irrelevant once sufficient). -/
def natReprAux : Nat → Nat → List Char
  | 0, _ => []
  | fuel + 1, n =>
    if n < 10 then [Nat.digitChar n]
    else natReprAux fuel (n / 10) ++ [Nat.digitChar (n % 10)]

/-- Decimal digit list of a natural number, most significant digit first. -/
def natRepr (n : Nat) : List Char := natReprAux (n + 1) n

/-- Decimal rendering of a natural number as a string. -/
def natReprS (n : Nat) : String := ⟨natRepr n⟩

/-! ## Ordering comparators

Models of Rust `Ord::cmp` on the scalar and aggregate types the listing
sorter compares (`src/template.rs` lines 264-273). -/

/-- Comparison of unsigned machine integers. -/
def natCmp (a b : Nat) : Ordering :=
  if a < b then .lt else if b < a then .gt else .eq

/-- Comparison of characters, as the comparison of their scalar values
(UTF-8 byte order agrees with code point order). -/
def charCmp (a b : Char) : Ordering := natCmp a.toNat b.toNat

/-- Lexicographic comparison of lists, as Rust derives it for sequences. -/
def listCmp (cmp : α → α → Ordering) : List α → List α → Ordering
  | [], [] => .eq
  | [], _ :: _ => .lt
  | _ :: _, [] => .gt
  | x :: xs, y :: ys =>
    match cmp x y with
    | .eq => listCmp cmp xs ys
    | o => o

/-- Comparison of strings: byte-lexicographic, like Rust `str::cmp`. -/
def strCmp (a b : String) : Ordering := listCmp charCmp a.data b.data

/-- Comparison of optional values: `None` sorts before `Some`, like Rust
`Option::cmp`. -/
def optionCmp (cmp : α → α → Ordering) : Option α → Option α → Ordering
  | some x, some y => cmp x y
  | some _, none => .gt
  | none, some _ => .lt
  | none, none => .eq

/-! ## Log notes and run-time failure modes

The source reports recoverable oddities with `eprintln!` notes.  The model
records which note was emitted, not its exact message text.  `RunErr`
marks the failure modes of the embedding: `panic` for a Rust panic
(`unwrap` on `None`), `fuel` for a search loop the source runs unboundedly,
and `external` for behaviour of the external markdown library outside the
modelled fragment. -/

inductive Note where
  | depthParseFailed
  | sortArgsInvalid
  | unknownListArg
  | unknownRule
  | missingCloseMarker
  | includeFailed
  deriving DecidableEq, Repr

inductive RunErr where
  | panic
  | fuel
  | external
  deriving DecidableEq, Repr

/-! ## Heading anchor allocator (`src/html.rs` lines 218-249)

`HtmlWriter::generate_heading_id` normalizes the heading text and resolves
collisions against the per-render set `heading_identifiers`.  The `HashSet`
is modelled as a `List String` holding the issued identifiers (membership is
the only operation the source performs besides insertion); a fresh
`HtmlWriter` starts it empty (`HtmlWriter::new`, line 208). -/

/-- The separator character `SEP_CHAR` of `generate_heading_id`. -/
def SEP_CHAR : Char := '_'

/-- Normalization of a heading into an identifier: the character loop of
`generate_heading_id` (lines 222-232).  Alphanumeric characters are
lowercased and appended, a run of non-alphanumerics collapses to one
separator; the `Bool` component is the `ignored_last` flag.  (Rust
classifies and lowercases by full Unicode tables; the model uses Lean's
`Char` versions, which agree on ASCII — all concrete inputs below are
ASCII.) -/
def normalizeHeading (heading : String) : String :=
  let step : List Char × Bool → Char → List Char × Bool := fun (acc, ignoredLast) c =>
    if c.isAlphanum then (acc ++ [c.toLower], false)
    else if ignoredLast then (acc, ignoredLast) else (acc ++ [SEP_CHAR], true)
  ⟨(heading.data.foldl step ([], false)).1⟩

/-- Candidate identifier tried by the collision loop:
`format!("{}{}{}", identifier, SEP_CHAR, n)` (line 239). -/
def mkCand (identifier : String) (n : Nat) : String :=
  identifier ++ ⟨[SEP_CHAR]⟩ ++ natReprS n

/-- The collision loop `for n in 2..` (lines 238-243), searching for the
first candidate not yet issued.  The source iterates unboundedly; the model
carries fuel, and `findFresh_some` below proves that the fuel passed by
`generateHeadingId` always suffices, so the `none` case is unreachable. -/
def findFresh (ids : List String) (identifier : String) : Nat → Nat → Option String
  | _, 0 => none
  | n, fuel + 1 =>
    let cand := mkCand identifier n
    if cand ∈ ids then findFresh ids identifier (n + 1) fuel else some cand

/-- Model of `generate_heading_id`: returns the issued identifier and the
updated identifier set.  In the source every tried candidate is passed to
`HashSet::insert`, but only the successful one changes the set (failed
candidates are already members), so inserting just the returned identifier
is equivalent. -/
def generateHeadingId (ids : List String) (heading : String) : Option (String × List String) :=
  let identifier := normalizeHeading heading
  if identifier ∈ ids then
    match findFresh ids identifier 2 (ids.length + 1) with
    | some nid => some (nid, nid :: ids)
    | none => none
  else
    some (identifier, identifier :: ids)

/-- Allocation of identifiers for a whole sequence of heading texts within
one render pass, threading the identifier set exactly as the writer does. -/
def allocIds : List String → List String → Option (List String × List String)
  | st, [] => some ([], st)
  | st, t :: ts =>
    match generateHeadingId st t with
    | none => none
    | some (id, st') =>
      match allocIds st' ts with
      | none => none
      | some (ids, stFinal) => some (id :: ids, stFinal)

/-! ## Heading adaptor (`src/adaptor.rs`)

`HyperlinkHeadings` is the iterator adaptor the template engine's
`Contents` rule wraps around the markdown parser.  Its base identifier
comes from `utils::generate_heading_id`, which is called from
`src/adaptor.rs` line 45 but absent from `src/utils.rs`. -/

/-- Modelled from the spec: `utils::generate_heading_id` is missing from
`src/utils.rs`; spec §4.2 gives the normalization algorithm (lowercase
alphanumerics, collapse non-alphanumeric runs to a single separator),
identical to the normalization step of `src/html.rs`. -/
def utilsGenerateHeadingId (text : String) : String := normalizeHeading text

/-- The adaptor's collision loop (`src/adaptor.rs` lines 46-53): starting
from `i = 2` it retries `format!("{}{}", original_id, i)` — the counter is
appended with no separator.  Fuel as in `findFresh`. -/
def adaptorFresh (ids : List String) (originalId : String) : Nat → Nat → Option String
  | _, 0 => none
  | i, fuel + 1 =>
    let cand := originalId ++ natReprS i
    if cand ∈ ids then adaptorFresh ids originalId (i + 1) fuel else some cand

/-! ## Markup events

Model of the event vocabulary of the external markdown library
(`pulldown_cmark::Event` / `Tag`), which spec §2 treats as a trusted leaf.
`CowStr` payloads become `String`. -/

inductive Alignment where
  | NoneAlign
  | Left
  | Center
  | Right
  deriving DecidableEq, Repr

inductive CodeBlockKind where
  | Indented
  | Fenced (info : String)
  deriving DecidableEq, Repr

inductive LinkType where
  | Inline
  | Reference
  | ReferenceUnknown
  | Collapsed
  | CollapsedUnknown
  | Shortcut
  | ShortcutUnknown
  | Autolink
  | Email
  deriving DecidableEq, Repr

inductive Tag where
  | Paragraph
  | Heading (level : Nat)
  | BlockQuote
  | CodeBlock (kind : CodeBlockKind)
  | List (start : Option Nat)
  | Item
  | FootnoteDefinition (label : String)
  | Table (alignments : List Alignment)
  | TableHead
  | TableRow
  | TableCell
  | Emphasis
  | Strong
  | Strikethrough
  | Link (linkType : LinkType) (dest : String) (title : String)
  | Image (linkType : LinkType) (dest : String) (title : String)
  deriving DecidableEq, Repr

inductive Event where
  | Start (tag : Tag)
  | End (tag : Tag)
  | Text (text : String)
  | Code (text : String)
  | Html (html : String)
  | SoftBreak
  | HardBreak
  | Rule
  | FootnoteReference (label : String)
  | TaskListMarker (checked : Bool)
  deriving DecidableEq, Repr

/-! ## Image-paragraph classifier (`src/html.rs` lines 96-167)

`ImageParagraphFilter` pulls from an inner iterator through a lookahead
queue (`VecDeque`).  The inner iterator is the not-yet-pulled suffix
`iter`; the queue is `queue`. -/

structure FilterState where
  iter : List Event
  queue : List Event
  deriving DecidableEq, Repr

/-- The `lookahead_n` loop (lines 111-119): move events from the inner
iterator to the back of the queue until the queue holds `n` events or the
iterator is exhausted. -/
def lookaheadN : List Event → List Event → Nat → List Event × List Event
  | [], queue, _ => ([], queue)
  | e :: rest, queue, n =>
    if n ≤ queue.length then (e :: rest, queue)
    else lookaheadN rest (queue ++ [e]) n

/-- One `Iterator::next` call of `ImageParagraphFilter` (lines 128-166):
after a 5-event lookahead, the exact shape paragraph-image-text-image-
paragraph is unwrapped (both paragraph events dropped, the image start
returned tagged `true`, the image text and end pushed back); any other
front event is passed through tagged `false`. -/
def filterNext (s : FilterState) : Option ((Event × Bool) × FilterState) :=
  match lookaheadN s.iter s.queue 5 with
  | (_, []) => none
  | (iter', .Start .Paragraph :: .Start (.Image lt d t) :: .Text txt ::
      .End (.Image lt₂ d₂ t₂) :: .End .Paragraph :: qrest) =>
    some ((.Start (.Image lt d t), true),
      ⟨iter', .Text txt :: .End (.Image lt₂ d₂ t₂) :: qrest⟩)
  | (iter', first :: qrest) => some ((first, false), ⟨iter', qrest⟩)

/-- Combined stream still to be produced: queue first, then the inner
iterator. -/
def FilterState.combined (s : FilterState) : List Event := s.queue ++ s.iter

/-- Running the classifier to exhaustion, collecting its output.  Every
`next` call consumes at least one event from the combined stream
(`filterRunF_eq_imageSpec` below), so the fuel passed by
`imageParagraphFilter` always suffices and the fuel-out branch is
unreachable. -/
def filterRunF : Nat → FilterState → List (Event × Bool)
  | 0, _ => []
  | fuel + 1, s =>
    match filterNext s with
    | none => []
    | some (eb, s') => eb :: filterRunF fuel s'

/-- The classifier over a whole event list, starting from the fresh state
built by `ImageParagraphFilter::new` (empty queue). -/
def imageParagraphFilter (events : List Event) : List (Event × Bool) :=
  filterRunF (events.length + 1) ⟨events, []⟩

/-- The classifier's contract in the spec's words (§4.1): the exact shape
start-paragraph, start-image, text, end-image, end-paragraph is unwrapped
(paragraph wrapper dropped, image start tagged standalone); every other
event passes through unchanged, in order, tagged `false`. -/
def imageSpec : List Event → List (Event × Bool)
  | .Start .Paragraph :: .Start (.Image lt d t) :: .Text txt ::
      .End (.Image lt₂ d₂ t₂) :: .End .Paragraph :: rest =>
    (.Start (.Image lt d t), true) :: (.Text txt, false) ::
      (.End (.Image lt₂ d₂ t₂), false) :: imageSpec rest
  | e :: rest => (e, false) :: imageSpec rest
  | [] => []

/-- One output step of the classifier viewed at the level of the combined
stream: a proof device relating `filterNext` (which works on the
queue/iterator split) to `imageSpec`. -/
def stepSpec : List Event → Option ((Event × Bool) × List Event)
  | [] => none
  | .Start .Paragraph :: .Start (.Image lt d t) :: .Text txt ::
      .End (.Image lt₂ d₂ t₂) :: .End .Paragraph :: rest =>
    some ((.Start (.Image lt d t), true),
      .Text txt :: .End (.Image lt₂ d₂ t₂) :: rest)
  | e :: rest => some ((e, false), rest)

/-! ## HTML escaping

`src/html.rs` uses `crate::escape`, whose source file is not present under
`src/`. -/

/-- Modelled from the spec: the `crate::escape` module is missing from
`src/`; the spec only requires HTML escaping (§4.3, §4.5), which the
upstream markdown library performs on the characters `&`, `<`, `>`, `"`. -/
def escapeHtmlChar : Char → List Char
  | '&' => "&amp;".data
  | '<' => "&lt;".data
  | '>' => "&gt;".data
  | '"' => "&quot;".data
  | c => [c]

/-- HTML-escaping of a string (model of `escape_html`, appending to the
writer). -/
def escapeHtml (s : String) : String :=
  ⟨s.data.foldr (fun c acc => escapeHtmlChar c ++ acc) []⟩

/-- Modelled from the spec: `escape_href` of the missing `crate::escape`
module.  Only `&` and quote characters are rewritten; every concrete URL
in the theorems below contains neither, so the theorems do not depend on
the exact escape set. -/
def escapeHrefChar : Char → List Char
  | '&' => "&amp;".data
  | '\'' => "%27".data
  | c => [c]

/-- Href-escaping of a string (model of `escape_href`). -/
def escapeHref (s : String) : String :=
  ⟨s.data.foldr (fun c acc => escapeHrefChar c ++ acc) []⟩

/-- Rust `str::ends_with('\n')` on the strings the renderer writes. -/
def endsWithNewline (s : String) : Bool :=
  match s.data.getLast? with
  | some '\n' => true
  | _ => false

/-! ## HTML renderer (`src/html.rs` lines 169-641)

`HtmlWriter` over a `String` writer: string writes cannot fail, so the
`io::Result` plumbing disappears; the remaining failure modes are the
allocator search fuel (`RunErr.fuel`, unreachable per `findFresh_some`).
`write!`/`write_str` calls go straight to the writer (`wRaw`), while
`self.write` also tracks the newline flag (`wWrite`). -/

inductive TableState where
  | Head
  | Body
  deriving DecidableEq, Repr

structure WriterSt where
  out : String
  titleWritten : Bool
  expectingHeadingText : Bool
  headingIdentifiers : List String
  insideFootnoteDef : Bool
  endNewline : Bool
  tableState : TableState
  tableAlignments : List Alignment
  tableCellIndex : Nat
  numbers : List (String × Nat)
  deriving DecidableEq, Repr

/-- `HtmlWriter::new` (lines 202-216). -/
def initWriter : WriterSt :=
  { out := ""
    titleWritten := false
    expectingHeadingText := false
    headingIdentifiers := []
    insideFootnoteDef := false
    endNewline := true
    tableState := .Head
    tableAlignments := []
    tableCellIndex := 0
    numbers := [] }

/-- `self.write` (lines 258-266): write and track the newline flag. -/
def wWrite (w : WriterSt) (s : String) : WriterSt :=
  { w with out := w.out ++ s
           endNewline := if s.data.isEmpty then w.endNewline else endsWithNewline s }

/-- A direct `write!`/`write_str` on the writer: no newline tracking. -/
def wRaw (w : WriterSt) (s : String) : WriterSt :=
  { w with out := w.out ++ s }

/-- `self.write_newline` (lines 252-255). -/
def wNewline (w : WriterSt) : WriterSt :=
  { w with out := w.out ++ "\n", endNewline := true }

/-- First-match lookup in the footnote-number association list (model of
the `HashMap` holding `numbers`). -/
def assocGet (l : List (String × Nat)) (k : String) : Option Nat :=
  match l with
  | [] => none
  | (k', v) :: rest => if k' = k then some v else assocGet rest k

/-- `let len = self.numbers.len() + 1; *self.numbers.entry(name).or_insert(len)`:
look the label up, inserting the next 1-based number when absent. -/
def numbersEntry (ns : List (String × Nat)) (name : String) : Nat × List (String × Nat) :=
  match assocGet ns name with
  | some v => (v, ns)
  | none => (ns.length + 1, ns ++ [(name, ns.length + 1)])

/-- The `raw_text` loop (lines 578-606), used while rendering an image's
alt text: consumes events up to the matching end tag, writing only plain
text and short fallback markers.  The fuel passed by `startTag` exceeds the
number of remaining events, so the fuel-out case is unreachable. -/
def rawText (fs : FilterState) (w : WriterSt) (nest : Nat) : Nat → FilterState × WriterSt
  | 0 => (fs, w)
  | fuel + 1 =>
    match filterNext fs with
    | none => (fs, w)
    | some ((event, _), fs') =>
      match event with
      | .Start _ => rawText fs' w (nest + 1) fuel
      | .End _ => if nest = 0 then (fs', w) else rawText fs' w (nest - 1) fuel
      | .Html t => rawText fs' { wRaw w (escapeHtml t) with endNewline := endsWithNewline t } nest fuel
      | .Code t => rawText fs' { wRaw w (escapeHtml t) with endNewline := endsWithNewline t } nest fuel
      | .Text t => rawText fs' { wRaw w (escapeHtml t) with endNewline := endsWithNewline t } nest fuel
      | .SoftBreak => rawText fs' (wWrite w " ") nest fuel
      | .HardBreak => rawText fs' (wWrite w " ") nest fuel
      | .Rule => rawText fs' (wWrite w " ") nest fuel
      | .FootnoteReference name =>
        let (number, ns) := numbersEntry w.numbers name
        rawText fs' (wRaw { w with numbers := ns } ("[" ++ natReprS number ++ "]")) nest fuel
      | .TaskListMarker true => rawText fs' (wWrite w "[x]") nest fuel
      | .TaskListMarker false => rawText fs' (wWrite w "[ ]") nest fuel

/-- `start_tag` (lines 337-506). -/
def startTag (fs : FilterState) (w : WriterSt) (tag : Tag) (isStandalone : Bool) :
    WriterSt × FilterState :=
  match tag with
  | .Paragraph =>
    if w.insideFootnoteDef then (w, fs)
    else if w.endNewline then (wWrite w "<p>", fs)
    else (wWrite w "\n<p>", fs)
  | .Heading level =>
    let w := if w.endNewline then { w with endNewline := false } else wRaw w "\n"
    let w := wRaw w ("<h" ++ natReprS level)
    let w := if !w.titleWritten then wRaw { w with titleWritten := true } " class=\"title\"" else w
    let w := { w with expectingHeadingText := true }
    (wRaw w " id=\"", fs)
  | .Table aligns => (wWrite { w with tableAlignments := aligns } "<table>", fs)
  | .TableHead => (wWrite { w with tableState := .Head, tableCellIndex := 0 } "<thead><tr>", fs)
  | .TableRow => (wWrite { w with tableCellIndex := 0 } "<tr>", fs)
  | .TableCell =>
    let w := match w.tableState with
      | .Head => wWrite w "<th"
      | .Body => wWrite w "<td"
    let w := match w.tableAlignments.get? w.tableCellIndex with
      | some .Left => wWrite w " align=\"left\">"
      | some .Center => wWrite w " align=\"center\">"
      | some .Right => wWrite w " align=\"right\">"
      | _ => wWrite w ">"
    (w, fs)
  | .BlockQuote =>
    (wWrite w (if w.endNewline then "<blockquote>\n" else "\n<blockquote>\n"), fs)
  | .CodeBlock kind =>
    let w := if !w.endNewline then wNewline w else w
    match kind with
    | .Fenced info =>
      let lang : String := ⟨info.data.takeWhile (· ≠ ' ')⟩
      if lang.data.isEmpty then (wWrite w "<pre><code>", fs)
      else
        let w := wWrite w "<pre><code class=\"language-"
        let w := wRaw w (escapeHtml lang)
        (wWrite w "\">", fs)
    | .Indented => (wWrite w "<pre><code>", fs)
  | .List (some 1) => (wWrite w (if w.endNewline then "<ol>\n" else "\n<ol>\n"), fs)
  | .List (some start) =>
    let w := wWrite w (if w.endNewline then "<ol start=\"" else "\n<ol start=\"")
    let w := wRaw w (natReprS start)
    (wWrite w "\">\n", fs)
  | .List none => (wWrite w (if w.endNewline then "<ul>\n" else "\n<ul>\n"), fs)
  | .Item => (wWrite w (if w.endNewline then "<li>" else "\n<li>"), fs)
  | .Emphasis => (wWrite w "<em>", fs)
  | .Strong => (wWrite w "<strong>", fs)
  | .Strikethrough => (wWrite w "<del>", fs)
  | .Link .Email dest title =>
    let w := wWrite w "<a href=\"mailto:"
    let w := wRaw w (escapeHref dest)
    let w := if !title.data.isEmpty then wRaw (wWrite w "\" title=\"") (escapeHtml title) else w
    (wWrite w "\">", fs)
  | .Link _ dest title =>
    let w := wWrite w "<a href=\""
    let w := wRaw w (escapeHref dest)
    let w := if !title.data.isEmpty then wRaw (wWrite w "\" title=\"") (escapeHtml title) else w
    (wWrite w "\">", fs)
  | .Image _ dest title =>
    let w := if isStandalone then wWrite w "<div class=\"image-container\">\n" else w
    let w := wWrite w "<img src=\""
    let w := wRaw w (escapeHref dest)
    let w := wWrite w "\" alt=\""
    let (fs', w) := rawText fs w 0 (fs.iter.length + fs.queue.length + 1)
    let w := if !title.data.isEmpty then wRaw (wWrite w "\" title=\"") (escapeHtml title) else w
    let w := wWrite w "\" />"
    if isStandalone then
      let w := wWrite w "\n<div class=\"image-caption\">"
      let w := wRaw w (escapeHtml title)
      let w := wWrite w "</div>\n"
      let w := wWrite w "</div>\n"
      (wWrite w "<p>\n", fs')
    else (w, fs')
  | .FootnoteDefinition name =>
    let w := { w with insideFootnoteDef := true }
    let w := wWrite w (if w.endNewline then "<p class=\"footnote\" id=\"f."
                       else "\n<p class=\"footnote\" id=\"f.")
    let w := wRaw w (escapeHtml name)
    let w := wWrite w "\"><sup>"
    let (number, ns) := numbersEntry w.numbers name
    let w := wRaw { w with numbers := ns } (natReprS number)
    (wWrite w "</sup> ", fs)

/-- `end_tag` (lines 508-575). -/
def endTag (w : WriterSt) (tag : Tag) : WriterSt :=
  match tag with
  | .Paragraph => if !w.insideFootnoteDef then wWrite w "</p>\n" else w
  | .Heading level => wWrite (wRaw (wWrite w "</h") (natReprS level)) ">\n"
  | .Table _ => wWrite w "</tbody></table>\n"
  | .TableHead => { wWrite w "</tr></thead><tbody>\n" with tableState := .Body }
  | .TableRow => wWrite w "</tr>\n"
  | .TableCell =>
    let w := match w.tableState with
      | .Head => wWrite w "</th>"
      | .Body => wWrite w "</td>"
    { w with tableCellIndex := w.tableCellIndex + 1 }
  | .BlockQuote => wWrite w "</blockquote>\n"
  | .CodeBlock _ => wWrite w "</code></pre>\n"
  | .List (some _) => wWrite w "</ol>\n"
  | .List none => wWrite w "</ul>\n"
  | .Item => wWrite w "</li>\n"
  | .Emphasis => wWrite w "</em>"
  | .Strong => wWrite w "</strong>"
  | .Strikethrough => wWrite w "</del>"
  | .Link _ _ _ => wWrite w "</a>"
  | .Image _ _ _ => w
  | .FootnoteDefinition name =>
    wRaw { w with insideFootnoteDef := false } (" <a href=\"#r." ++ name ++ "\">↩</a></p>\n")

/-- The `run` loop (lines 268-334).  One fuel unit per pulled event; the
fuel passed by `pushHtml` exceeds the stream length, so `RunErr.fuel` is
unreachable there. -/
def runWriter : Nat → FilterState → WriterSt → Except RunErr String
  | 0, _, _ => .error .fuel
  | fuel + 1, fs, w =>
    match filterNext fs with
    | none => .ok w.out
    | some ((event, isStandalone), fs') =>
      match event with
      | .Start tag =>
        let (w', fs'') := startTag fs' w tag isStandalone
        runWriter fuel fs'' w'
      | .End tag => runWriter fuel fs' (endTag w tag)
      | .Text text =>
        if w.expectingHeadingText then
          match generateHeadingId w.headingIdentifiers text with
          | none => .error .fuel
          | some (id, ids) =>
            let w := { w with expectingHeadingText := false, headingIdentifiers := ids }
            let w := wRaw w (id ++ "\">")
            let w := wRaw w ("<a class=\"anchor\" href=\"#" ++ id ++ "\">¶</a>")
            runWriter fuel fs' { wRaw w (escapeHtml text) with endNewline := endsWithNewline text }
        else
          runWriter fuel fs' { wRaw w (escapeHtml text) with endNewline := endsWithNewline text }
      | .Code text =>
        let w := wWrite w "<code>"
        let w := wRaw w (escapeHtml text)
        runWriter fuel fs' (wWrite w "</code>")
      | .Html html => runWriter fuel fs' (wWrite w html)
      | .SoftBreak => runWriter fuel fs' (wNewline w)
      | .HardBreak => runWriter fuel fs' (wWrite w "<br />\n")
      | .Rule =>
        runWriter fuel fs' (wWrite w (if w.endNewline then "<hr />\n" else "\n<hr />\n"))
      | .FootnoteReference name =>
        let (number, ns) := numbersEntry w.numbers name
        let w := { w with numbers := ns }
        let w := wRaw w ("<sup class=\"footnote-reference\" id=\"r." ++ name ++ "\"><a href=\"#f.")
        let w := wRaw w (escapeHtml name)
        let w := wWrite w "\">"
        let w := wRaw w (natReprS number)
        runWriter fuel fs' (wWrite w "</a></sup>")
      | .TaskListMarker true =>
        runWriter fuel fs' (wWrite w "<input disabled=\"\" type=\"checkbox\" checked=\"\"/>\n")
      | .TaskListMarker false =>
        runWriter fuel fs' (wWrite w "<input disabled=\"\" type=\"checkbox\"/>\n")

/-- `push_html` (lines 636-641): run a fresh writer over the image-filtered
event stream and return the accumulated string. -/
def pushHtml (events : List Event) : Except RunErr String :=
  runWriter (2 * events.length + 2) ⟨events, []⟩ initWriter

/-! ## The external renderer used by the `Contents` rule

`HtmlTemplate::apply` renders post contents with
`pulldown_cmark::html::push_html` — the renderer of the external markdown
library, not the modified one of `src/html.rs` — wrapped in the
`hyperlink_headings` adaptor (`src/template.rs` lines 200-207). -/

structure PdState where
  out : String
  endNewline : Bool
  deriving DecidableEq, Repr

/-- Write with newline tracking, as the external renderer does. -/
def pdWrite (st : PdState) (s : String) : PdState :=
  { out := st.out ++ s
    endNewline := if s.data.isEmpty then st.endNewline else endsWithNewline s }

/-- Model of the html renderer of the external pulldown-cmark library
(spec §2 treats the markup library as a trusted leaf).  Only the event
shapes the theorems below reach are modelled — raw html passes through
verbatim, text is escaped, paragraphs and headings emit plain tags —
and any other event stops the model with `none` to mark the modelling
boundary. -/
def pdRender : List Event → PdState → Option String
  | [], st => some st.out
  | e :: rest, st =>
    match e with
    | .Html html => pdRender rest (pdWrite st html)
    | .Text text =>
      pdRender rest { out := st.out ++ escapeHtml text, endNewline := endsWithNewline text }
    | .Start .Paragraph => pdRender rest (pdWrite st (if st.endNewline then "<p>" else "\n<p>"))
    | .End .Paragraph => pdRender rest (pdWrite st "</p>\n")
    | .Start (.Heading lvl) =>
      pdRender rest
        (pdWrite st (if st.endNewline then "<h" ++ natReprS lvl ++ ">"
                     else "\n<h" ++ natReprS lvl ++ ">"))
    | .End (.Heading lvl) => pdRender rest (pdWrite st ("</h" ++ natReprS lvl ++ ">\n"))
    | .SoftBreak => pdRender rest { out := st.out ++ "\n", endNewline := true }
    | _ => none

/-- Fresh state of the external renderer. -/
def pdInit : PdState := { out := "", endNewline := true }

/-! ## Running the heading adaptor -/

structure HyperSt where
  head : Option Event
  iter : List Event
  generatedIds : List String
  deriving DecidableEq, Repr

/-- Running `HyperlinkHeadings` to exhaustion (`src/adaptor.rs` lines
36-70).  One fuel unit per `next` call; the fuel passed by
`hyperlinkHeadings` exceeds the number of calls, so fuel-out (`none`) is
unreachable there except through the collision-search fuel, which mirrors
the source's unbounded loop. -/
def hyperRun (st : HyperSt) : Nat → Option (List Event)
  | 0 => none
  | fuel + 1 =>
    match st.head with
    | some e => (e :: ·) <$> hyperRun { st with head := none } fuel
    | none =>
      match st.iter with
      | [] => some []
      | .Start (.Heading level) :: rest =>
        match rest with
        | .Text text :: rest₂ =>
          let baseId := utilsGenerateHeadingId text
          match (if baseId ∈ st.generatedIds
                 then adaptorFresh st.generatedIds baseId 2 (st.generatedIds.length + 1)
                 else some baseId) with
          | none => none
          | some id =>
            (Event.Html ("<h" ++ natReprS level ++ " id=\"" ++ id ++ "\">") :: ·) <$>
              hyperRun ⟨some (.Text text), rest₂, id :: st.generatedIds⟩ fuel
        | e :: rest₂ =>
          (Event.Start (.Heading level) :: ·) <$>
            hyperRun ⟨some e, rest₂, st.generatedIds⟩ fuel
        | [] => some []
      | e :: rest => (e :: ·) <$> hyperRun ⟨none, rest, st.generatedIds⟩ fuel

/-- The adaptor over a whole event stream, from the fresh state built by
`hyperlink_headings` (no pending head, empty identifier set). -/
def hyperlinkHeadings (events : List Event) : Option (List Event) :=
  hyperRun ⟨none, events, []⟩ (2 * events.length + 1)

/-- The `Contents` rule's rendering pipeline (`src/template.rs` lines
200-207): the external renderer over the adaptor-transformed stream.  The
post's markdown body is represented by its parsed event sequence, since
the external parser is a trusted leaf (spec §2). -/
def contentsValue (markdown : List Event) : Except RunErr String :=
  match hyperlinkHeadings markdown with
  | none => .error .fuel
  | some evs =>
    match pdRender evs pdInit with
    | none => .error .external
    | some s => .ok s

/-! ## The `Post` record

The template engine consumes a richer `Post` than the one defined in
`src/post.rs` (that file belongs to an earlier layer without `uri`, `meta`,
`toc`, ...). -/

/-- Modelled from the spec: the `Post` record the template engine reads
(spec §3) — source path, markdown body (here represented by its parsed
event sequence, the external parser being a trusted leaf), metadata map,
title, creation and modification dates (abstract ordinals, only ever
compared), category, tags, optional template path, site URI and table of
contents.  Paths are component lists; URIs are strings. -/
structure Post where
  path : List String
  markdown : List Event
  meta : List (String × String)
  title : String
  date : Nat
  updated : Nat
  category : String
  tags : List String
  template : Option String
  uri : String
  toc : List (String × Nat)
  deriving DecidableEq, Repr

/-- First-match lookup in the metadata association list (model of the
`HashMap` behind `post.meta`). -/
def metaGet (l : List (String × String)) (k : String) : Option String :=
  match l with
  | [] => none
  | (k', v) :: rest => if k' = k then some v else metaGet rest k

/-! ## Template value tokenizer (`src/utils.rs` lines 4-64)

`parse_next_value` works on the byte slice; the model works on the char
list (identical on the ASCII inputs considered). -/

/-- Rust `u8::is_ascii_whitespace`. -/
def isAsciiWhitespace (c : Char) : Bool :=
  c = ' ' || c = '\t' || c = '\n' || c = '\x0c' || c = '\r'

/-- The quoted-value loop (lines 22-53): backslash escapes the next
character, an unescaped quote closes the value, an unterminated quote
consumes to the end (the source logs notes for open escapes and missing
closers; the notes are not tracked here).  Returns the value and the
remaining input after the closing quote. -/
def parseQuotedVal : List Char → Bool → List Char × List Char
  | [], _ => ([], [])
  | c :: rest, esc =>
    if esc then
      let (v, r) := parseQuotedVal rest false
      (c :: v, r)
    else if c = '\\' then parseQuotedVal rest true
    else if c = '"' then ([], rest)
    else
      let (v, r) := parseQuotedVal rest false
      (c :: v, r)

/-- `parse_next_value`: skip whitespace, then read either a double-quoted
value or a bare run of non-whitespace; returns the value (if any) and the
rest of the input. -/
def parseNextValue (l : List Char) : Option String × List Char :=
  let l' := l.dropWhile isAsciiWhitespace
  match l' with
  | [] => (none, [])
  | c :: rest =>
    if c = '"' then
      let (v, r) := parseQuotedVal rest false
      (some ⟨v⟩, r)
    else
      (some ⟨l'.takeWhile (fun ch => !isAsciiWhitespace ch)⟩,
        l'.dropWhile (fun ch => !isAsciiWhitespace ch))

/-- Model of `str::parse::<u8>()`: optional leading `+`, at least one
digit, value within `u8` range. -/
def parseU8 (s : String) : Option Nat :=
  let l := match s.data with
    | '+' :: rest => rest
    | l => l
  if l = [] then none
  else if l.all (·.isDigit) then
    let n := l.foldl (fun acc c => acc * 10 + (c.toNat - 48)) 0
    if n ≤ 255 then some n else none
  else none

/-! ## Template rules (`src/template.rs` lines 14-140) -/

/-- The sort keys of a `LIST` directive (`MetaKey`, lines 21-30), resolved
from the metadata key names of `src/config.rs`. -/
inductive MetaKey where
  | Title
  | CreationDate
  | ModifiedDate
  | Category
  | Tags
  | Template
  | Meta (key : String)
  deriving DecidableEq, Repr

/-- `MetaKey::new` (lines 63-81) with the `META_KEY_*` constants of
`src/config.rs` inlined. -/
def MetaKey.new (value : String) : MetaKey :=
  if value = "title" then .Title
  else if value = "date" then .CreationDate
  else if value = "updated" then .ModifiedDate
  else if value = "category" then .Category
  else if value = "tags" then .Tags
  else if value = "template" then .Template
  else .Meta value

/-- `PreprocessorRule` (lines 32-50). -/
inductive PreprocessorRule where
  | Contents
  | Css
  | Toc (depth : Nat)
  | Listing (path : String) (sortBy : Option (MetaKey × Bool))
  | Meta (key : String)
  | Include (path : String)
  deriving DecidableEq, Repr

/-- The `while let Some(arg) = parse_next_value` loop of the `LIST` rule
(lines 106-125).  Each iteration consumes at least one character, so the
fuel passed by `PreprocessorRule.new` suffices. -/
def listArgsLoop : List Char → Option (MetaKey × Bool) → List Note → Nat →
    Option (MetaKey × Bool) × List Note
  | _, sortBy, notes, 0 => (sortBy, notes)
  | l, sortBy, notes, fuel + 1 =>
    match parseNextValue l with
    | (none, _) => (sortBy, notes)
    | (some arg, rest) =>
      if arg = "sort" then
        let (key?, rest₂) := parseNextValue rest
        let (order?, rest₃) := parseNextValue rest₂
        match key?, order? with
        | some key, some order =>
          if order = "asc" || order = "desc" then
            listArgsLoop rest₃ (some (MetaKey.new key, order = "asc")) notes fuel
          else listArgsLoop rest₃ sortBy (notes ++ [.sortArgsInvalid]) fuel
        | _, _ => listArgsLoop rest₃ sortBy (notes ++ [.sortArgsInvalid]) fuel
      else listArgsLoop rest sortBy (notes ++ [.unknownListArg]) fuel

/-- `PreprocessorRule::new` (lines 84-139): first token selects the rule,
remaining tokens are rule-specific.  `none` mirrors the source's `None`
(unknown rule name or missing required argument); the note list records
the `eprintln!` calls. -/
def PreprocessorRule.new (s : String) : Option PreprocessorRule × List Note :=
  let (rule?, rest) := parseNextValue s.data
  match rule? with
  | none => (none, [])
  | some rule =>
    if rule = "CONTENTS" then (some .Contents, [])
    else if rule = "CSS" then (some .Css, [])
    else if rule = "TOC" then
      match parseNextValue rest with
      | (some value, _) =>
        match parseU8 value with
        | some depth => (some (.Toc depth), [])
        | none => (some (.Toc 255), [.depthParseFailed])
      | (none, _) => (some (.Toc 255), [])
    else if rule = "LIST" then
      match parseNextValue rest with
      | (none, _) => (none, [])
      | (some path, rest₂) =>
        let (sortBy, notes) := listArgsLoop rest₂ none [] (rest₂.length + 1)
        (some (.Listing path sortBy), notes)
    else if rule = "META" then
      match parseNextValue rest with
      | (none, _) => (none, [])
      | (some key, _) => (some (.Meta key), [])
    else if rule = "INCLUDE" then
      match parseNextValue rest with
      | (none, _) => (none, [])
      | (some path, _) => (some (.Include path), [])
    else (none, [])

/-! ## Template parsing (`src/template.rs` lines 142-185) -/

/-- A `Replacement`: a byte range into the original template text plus the
parsed rule. -/
structure Replacement where
  start : Nat
  stop : Nat
  rule : PreprocessorRule
  deriving DecidableEq, Repr

/-- A parsed template: original text plus its replacement list. -/
structure HtmlTemplate where
  html : String
  replacements : List Replacement
  deriving DecidableEq, Repr

/-- Model of `str::find` for a literal pattern: index of the first
occurrence of `needle` in `hay`. -/
def findSubstr (needle hay : List Char) : Option Nat :=
  if needle.isPrefixOf hay then some 0
  else
    match hay with
    | [] => none
    | _ :: rest => (· + 1) <$> findSubstr needle rest

/-- `TEMPLATE_OPEN_MARKER` of `src/config.rs`. -/
def TEMPLATE_OPEN_MARKER : List Char := "<!--P/".data

/-- `TEMPLATE_CLOSE_MARKER` of `src/config.rs`. -/
def TEMPLATE_CLOSE_MARKER : List Char := "/P-->".data

/-- The scan loop of `HtmlTemplate::new` (lines 152-184): find the next
open marker, the matching close marker, parse the rule between them and
record a replacement covering marker to marker; an unparsable rule is
skipped with a note; a missing close marker stops the scan with a note.
Each iteration advances the offset past a close marker, so the fuel passed
by `HtmlTemplate.new` suffices. -/
def parseLoop (html : List Char) (offset : Nat) : Nat → List Replacement × List Note
  | 0 => ([], [])
  | fuel + 1 =>
    match findSubstr TEMPLATE_OPEN_MARKER (html.drop offset) with
    | none => ([], [])
    | some index =>
      let ruleStart := offset + index + TEMPLATE_OPEN_MARKER.length
      match findSubstr TEMPLATE_CLOSE_MARKER (html.drop ruleStart) with
      | none => ([], [.missingCloseMarker])
      | some i =>
        let ruleEnd := ruleStart + i
        let ruleStr : String := ⟨(html.drop ruleStart).take i⟩
        let newOffset := ruleEnd + TEMPLATE_CLOSE_MARKER.length
        let (restReps, restNotes) := parseLoop html newOffset fuel
        match PreprocessorRule.new ruleStr with
        | (some rule, ns) => (⟨offset + index, newOffset, rule⟩ :: restReps, ns ++ restNotes)
        | (none, ns) => (restReps, ns ++ [.unknownRule] ++ restNotes)

/-- `HtmlTemplate::new` over in-memory text (`from_string`). -/
def HtmlTemplate.new (html : String) : HtmlTemplate × List Note :=
  let (reps, notes) := parseLoop html.data 0 (html.data.length + 1)
  ({ html := html, replacements := reps }, notes)

/-! ## Path and URI helpers (`src/utils.rs` lines 66-128) -/

/-- Component accumulator for `splitPath`. -/
def splitPathAux : List Char → List Char → List String
  | [], acc => if acc.isEmpty then [] else [⟨acc⟩]
  | c :: rest, acc =>
    if c = '/' then
      if acc.isEmpty then splitPathAux rest [] else ⟨acc⟩ :: splitPathAux rest []
    else splitPathAux rest (acc ++ [c])

/-- Splitting a path string into components (Rust `PathBuf::push` of a
multi-component relative string produces exactly these components). -/
def splitPath (s : String) : List String := splitPathAux s.data []

/-- Whether a path value is absolute (`value.strip_prefix('/')` matches). -/
def startsWithSlash (s : String) : Bool :=
  match s.data with
  | '/' :: _ => true
  | _ => false

/-- `get_abs_path` (lines 67-77): a value starting with `/` resolves under
the root, anything else under the parent of the current file's path.
`path.parent().unwrap()` panics when the path has no parent (empty
component list). -/
def getAbsPath (root : List String) (path : List String) (value : String) :
    Except RunErr (List String) :=
  if startsWithSlash value then .ok (root ++ splitPath ⟨value.data.drop 1⟩)
  else
    match path with
    | [] => .error .panic
    | _ => .ok (path.dropLast ++ splitPath value)

/-- Model of Rust `Path::extension` on a file name: the part after the
last `.`, none when there is no dot or the only dot starts a hidden file
name. -/
def extensionOf (name : String) : Option String :=
  let revChars := name.data.reverse
  let afterRev := revChars.takeWhile (· ≠ '.')
  match revChars.dropWhile (· ≠ '.') with
  | '.' :: restRev => if restRev = [] then none else some ⟨afterRev.reverse⟩
  | _ => none

/-- Rust `to_ascii_lowercase`. -/
def asciiLower (s : String) : String :=
  ⟨s.data.map (fun c => if 'A' ≤ c && c ≤ 'Z' then Char.ofNat (c.toNat + 32) else c)⟩

/-- Modelled from the spec: `INCLUDE_RAW_EXTENSIONS` is imported from
`src/config.rs` but missing there; the spec (§4.5) only says it is a small
allow-list of raw extensions.  No theorem below depends on its exact
contents. -/
def INCLUDE_RAW_EXTENSIONS : List String := ["html", "css", "js"]

/-- Model of `str::rfind`: index of the last occurrence of a character. -/
def strRFind : List Char → Char → Option Nat
  | [], _ => none
  | x :: rest, c =>
    match strRFind rest c with
    | some i => some (i + 1)
    | none => if x = c then some 0 else none

/-- The index-walking loop of `get_relative_uri` (lines 105-114): find the
first differing index (`count_after`, defaulting to the length of
`relative_to`) and the last index before it holding a shared `/`. -/
def relUriLoop (rel uri : List Char) (i ca lss : Nat) : Nat → Nat × Nat
  | 0 => (ca, lss)
  | fuel + 1 =>
    if i < max rel.length uri.length then
      if rel.get? i ≠ uri.get? i then (i, lss)
      else relUriLoop rel uri (i + 1) ca (if uri.get? i = some '/' then i else lss) fuel
    else (ca, lss)

/-- `get_relative_uri` (lines 101-128): climb with `../` once per slash
remaining in `relative_to` after the shared prefix, then append the target
URI past the last shared slash. -/
def getRelativeUri (relativeTo uri : String) : String :=
  let rel := relativeTo.data
  let u := uri.data
  let (countAfter, lastSharedSlash) :=
    relUriLoop rel u 0 rel.length 0 (max rel.length u.length + 1)
  let upCount := ((rel.drop countAfter).filter (· = '/')).length
  ⟨(List.replicate upCount "../".data).flatten ++ u.drop (lastSharedSlash + 1)⟩

/-! ## The listing sorter (`src/template.rs` lines 260-282) -/

/-- The per-key comparator of `Listing`'s `sort_by` closure (lines
264-273). -/
def cmpPostsKey (key : MetaKey) (a b : Post) : Ordering :=
  match key with
  | .Title => strCmp a.title b.title
  | .CreationDate => natCmp a.date b.date
  | .ModifiedDate => natCmp a.updated b.updated
  | .Category => strCmp a.category b.category
  | .Tags => listCmp strCmp a.tags b.tags
  | .Template => optionCmp strCmp a.template b.template
  | .Meta k => optionCmp strCmp (metaGet a.meta k) (metaGet b.meta k)

/-- The full comparator including the `asc`/`desc` reversal (lines
275-279). -/
def sortCmp (key : MetaKey) (asc : Bool) (a b : Post) : Ordering :=
  let ordering := cmpPostsKey key a b
  if asc then ordering else ordering.swap

/-- Rust `Vec::sort_by` is a stable sort; a stable sort for a given total
preorder is extensionally unique, so the model uses insertion sort over
the non-strict relation induced by the comparator. -/
def listingSortedPosts (key : MetaKey) (asc : Bool) (files : List Post) : List Post :=
  List.insertionSort (fun a b => sortCmp key asc a b ≠ .gt) files

/-! ## Rule evaluation and substitution (`src/template.rs` lines 187-335)

The file system is an explicit oracle from resolved path components to
file contents (`fs::read_to_string` succeeding or failing). -/

/-- One `<li><a ...>` entry of a listing (lines 288-292). -/
def listingEntry (md : Post) (file : Post) : String :=
  "<li><a href=\"" ++ getRelativeUri md.uri file.uri ++ "\">" ++ file.title ++ "</a></li>"

/-- The `Listing` branch (lines 257-296): resolve the directive path, sort
a copy when requested, then emit entries for the posts whose source path
is component-prefixed by the resolved path, in list order. -/
def listingValue (root : List String) (md : Post) (files : List Post) (pathStr : String)
    (sortBy : Option (MetaKey × Bool)) : Except RunErr String :=
  match getAbsPath root md.path pathStr with
  | .error e => .error e
  | .ok path =>
    let files' := match sortBy with
      | some (key, asc) => listingSortedPosts key asc files
      | none => files
    .ok ("<ul>" ++
      files'.foldl (fun acc file =>
        if path.isPrefixOf file.path then acc ++ listingEntry md file else acc) "" ++
      "</ul>")

/-- The walk of the `Toc` branch (lines 220-255): skip entries deeper than
`max_depth`; open `<ul>` per level on an increase, close per level on a
decrease, emit `<li>`, and close everything at the end. -/
def tocGo (maxDepth : Nat) : List (String × Nat) → Nat → String
  | [], cur => String.join (List.replicate cur "</ul>")
  | (heading, depth) :: rest, cur =>
    if maxDepth < depth then tocGo maxDepth rest cur
    else
      (if cur < depth then String.join (List.replicate (depth - cur) "<ul>")
       else String.join (List.replicate (cur - depth) "</ul>")) ++
      "<li>" ++ heading ++ "</li>" ++ tocGo maxDepth rest depth

/-- The `Toc` branch from depth 0. -/
def tocValue (toc : List (String × Nat)) (maxDepth : Nat) : String :=
  tocGo maxDepth toc 0

/-- The `Css` branch (lines 208-219): one `<link>` per known CSS file
whose containing directory prefixes the post's URI; `rfind('/')` panics on
a slashless CSS URI. -/
def cssValue (cssFiles : List String) (uri : String) : Except RunErr String :=
  cssFiles.foldlM (fun acc css =>
    match strRFind css.data '/' with
    | none => .error .panic
    | some idx =>
      let parent : List Char := css.data.take idx
      if parent.isPrefixOf uri.data then
        .ok (acc ++ "<link rel=\"stylesheet\" type=\"text/css\" href=\"" ++ css ++ "\">")
      else .ok acc) ""

/-- The `Include` branch (lines 301-328): resolve the path and read it;
on success the contents are inserted raw when the extension — obtained by
`path.extension().unwrap()`, a panic when absent — is allow-listed, and
HTML-escaped otherwise; on read failure a note is logged and the
replacement is skipped (`continue`), returning `none`. -/
def includeValue (root : List String) (md : Post) (fs : List String → Option String)
    (pathStr : String) : Except RunErr (Option String × List Note) :=
  match getAbsPath root md.path pathStr with
  | .error e => .error e
  | .ok path =>
    match fs path with
    | some s =>
      match path.getLast? with
      | none => .error .panic
      | some comp =>
        match extensionOf comp with
        | none => .error .panic
        | some ext =>
          if asciiLower ext ∈ INCLUDE_RAW_EXTENSIONS then .ok (some s, [])
          else .ok (some (escapeHtml s), [])
    | none => .ok (none, [.includeFailed])

/-- Evaluation of one rule to its replacement text: `some` is the value
substituted into the template, `none` the skipped substitution of a failed
include. -/
def evalRule (root : List String) (md : Post) (files : List Post) (cssFiles : List String)
    (fs : List String → Option String) : PreprocessorRule → Except RunErr (Option String × List Note)
  | .Contents =>
    match contentsValue md.markdown with
    | .error e => .error e
    | .ok s => .ok (some s, [])
  | .Css =>
    match cssValue cssFiles md.uri with
    | .error e => .error e
    | .ok s => .ok (some s, [])
  | .Toc depth => .ok (some (tocValue md.toc depth), [])
  | .Listing path sortBy =>
    match listingValue root md files path sortBy with
    | .error e => .error e
    | .ok s => .ok (some s, [])
  | .Meta key => .ok (some ((metaGet md.meta key).getD ""), [])
  | .Include path => includeValue root md fs path

/-- `String::replace_range` against the original text (working on the char
list). -/
def replaceRange (html : List Char) (start stop : Nat) (value : String) : List Char :=
  html.take start ++ value.data ++ html.drop stop

/-- The substitution loop of `apply` (lines 198-332), already given the
replacements in application order (highest start offset first). -/
def applyGo (root : List String) (md : Post) (files : List Post) (cssFiles : List String)
    (fs : List String → Option String) :
    List Replacement → List Char → Except RunErr (List Char × List Note)
  | [], html => .ok (html, [])
  | r :: rest, html =>
    match evalRule root md files cssFiles fs r.rule with
    | .error e => .error e
    | .ok (v?, ns) =>
      let html' := match v? with
        | some v => replaceRange html r.start r.stop v
        | none => html
      match applyGo root md files cssFiles fs rest html' with
      | .error e => .error e
      | .ok (htmlF, nsRest) => .ok (htmlF, ns ++ nsRest)

/-- The stable `sort_by_key(|r| r.range.start)` of `apply` (line 196). -/
def sortReplacements (reps : List Replacement) : List Replacement :=
  List.insertionSort (fun a b => a.start ≤ b.start) reps

/-- `HtmlTemplate::apply` (lines 187-335): clone the template text and the
replacement list, sort by start offset and substitute in reverse order. -/
def HtmlTemplate.apply (t : HtmlTemplate) (root : List String) (md : Post) (files : List Post)
    (cssFiles : List String) (fs : List String → Option String) :
    Except RunErr (String × List Note) :=
  match applyGo root md files cssFiles fs ((sortReplacements t.replacements).reverse) t.html.data with
  | .error e => .error e
  | .ok (html, notes) => .ok (⟨html⟩, notes)

/-! ## Concrete fixtures

Input data for the closed theorems below. -/

/-- A concrete post: three TOC entries and one metadata key. -/
def samplePost : Post :=
  { path := ["root", "blog", "post.md"]
    markdown := []
    meta := [("author", "me")]
    title := "T"
    date := 1
    updated := 2
    category := "c"
    tags := []
    template := none
    uri := "/blog/post"
    toc := [("A", 1), ("B", 2), ("C", 1)] }

/-- A concrete listed post living under `root/blog`. -/
def listedPost (title comp uri : String) : Post :=
  { path := ["root", "blog", comp]
    markdown := []
    meta := []
    title := title
    date := 0
    updated := 0
    category := ""
    tags := []
    template := none
    uri := uri
    toc := [] }

end Pagong

namespace Pagong

/-! ## Facts about decimal formatting -/

theorem natReprAux_fuel :
    ∀ f₁ f₂ n, n < f₁ → n < f₂ → natReprAux f₁ n = natReprAux f₂ n := by
  intro f₁
  induction f₁ with
  | zero => intro f₂ n h1; omega
  | succ f ih =>
    intro f₂ n h1 h2
    cases f₂ with
    | zero => omega
    | succ f₂' =>
      simp only [natReprAux]
      by_cases h10 : n < 10
      · simp [h10]
      · rw [if_neg h10, if_neg h10]
        have hdiv : n / 10 < n := Nat.div_lt_self (by omega) (by omega)
        rw [ih f₂' (n / 10) (by omega) (by omega)]

theorem natRepr_small {n : Nat} (h : n < 10) : natRepr n = [Nat.digitChar n] := by
  simp [natRepr, natReprAux, h]

theorem natRepr_big {n : Nat} (h : ¬ n < 10) :
    natRepr n = natRepr (n / 10) ++ [Nat.digitChar (n % 10)] := by
  have hdiv : n / 10 < n := Nat.div_lt_self (by omega) (by omega)
  show natReprAux (n + 1) n = natRepr (n / 10) ++ [Nat.digitChar (n % 10)]
  rw [show natReprAux (n + 1) n = natReprAux n (n / 10) ++ [Nat.digitChar (n % 10)] from by
    simp only [natReprAux]
    rw [if_neg h]]
  rw [natReprAux_fuel n (n / 10 + 1) (n / 10) (by omega) (by omega)]
  rfl

theorem natRepr_ne_nil (n : Nat) : natRepr n ≠ [] := by
  by_cases h : n < 10
  · rw [natRepr_small h]; simp
  · rw [natRepr_big h]; simp

theorem digitChar_inj_lt10 :
    ∀ a < 10, ∀ b < 10, Nat.digitChar a = Nat.digitChar b → a = b := by
  decide

theorem natRepr_inj : ∀ m n : Nat, natRepr m = natRepr n → m = n := by
  intro m
  induction m using Nat.strong_induction_on with
  | _ m ih =>
    intro n h
    by_cases hm : m < 10 <;> by_cases hn : n < 10
    · rw [natRepr_small hm, natRepr_small hn] at h
      exact digitChar_inj_lt10 m hm n hn (by simpa using h)
    · exfalso
      rw [natRepr_small hm, natRepr_big hn] at h
      have hlen := congrArg List.length h
      have hne := natRepr_ne_nil (n / 10)
      cases hrep : natRepr (n / 10) with
      | nil => exact hne hrep
      | cons c cs => rw [hrep] at hlen; simp at hlen
    · exfalso
      rw [natRepr_big hm, natRepr_small hn] at h
      have hlen := congrArg List.length h
      have hne := natRepr_ne_nil (m / 10)
      cases hrep : natRepr (m / 10) with
      | nil => exact hne hrep
      | cons c cs => rw [hrep] at hlen; simp at hlen
    · rw [natRepr_big hm, natRepr_big hn] at h
      have h' := congrArg List.reverse h
      simp only [List.reverse_append, List.reverse_cons, List.reverse_nil, List.nil_append,
        List.singleton_append, List.cons.injEq] at h'
      obtain ⟨hd, htl⟩ := h'
      have hdiv : m / 10 = n / 10 := by
        apply ih (m / 10) (Nat.div_lt_self (by omega) (by omega))
        have := congrArg List.reverse htl
        simpa using this
      have hmod : m % 10 = n % 10 :=
        digitChar_inj_lt10 _ (Nat.mod_lt _ (by omega)) _ (Nat.mod_lt _ (by omega)) hd
      omega

theorem natReprS_inj {m n : Nat} (h : natReprS m = natReprS n) : m = n := by
  apply natRepr_inj
  simpa [natReprS] using congrArg String.data h

/-! ## The collision loop always finds a fresh identifier

The `for n in 2..` loop of `generate_heading_id` terminates because the
candidate identifiers are pairwise distinct and the set of issued
identifiers is finite: among `|ids| + 1` candidates at least one is free. -/

theorem mkCand_inj {id : String} {a b : Nat} (h : mkCand id a = mkCand id b) : a = b := by
  apply natRepr_inj
  have h' := congrArg String.data h
  simp only [mkCand, String.data_append] at h'
  have h'' := List.append_cancel_left h'
  simpa [natReprS] using h''

theorem findFresh_none {ids : List String} {id : String} :
    ∀ fuel n, findFresh ids id n fuel = none → ∀ j < fuel, mkCand id (n + j) ∈ ids := by
  intro fuel
  induction fuel with
  | zero => intro n _ j hj; omega
  | succ f ihf =>
    intro n h j hj
    by_cases hc : mkCand id n ∈ ids
    · simp only [findFresh, hc, if_pos] at h
      cases j with
      | zero => simpa using hc
      | succ j' =>
        have := ihf (n + 1) h j' (by omega)
        have harith : n + 1 + j' = n + (j' + 1) := by omega
        rwa [harith] at this
    · simp [findFresh, hc] at h

theorem findFresh_some {ids : List String} {id : String} :
    ∃ c, findFresh ids id 2 (ids.length + 1) = some c := by
  cases hf : findFresh ids id 2 (ids.length + 1) with
  | some c => exact ⟨c, rfl⟩
  | none =>
    exfalso
    have hall := findFresh_none _ _ hf
    have hinj : Function.Injective (fun j : Nat => mkCand id (2 + j)) := by
      intro a b hab
      have := mkCand_inj hab
      omega
    have hnd : ((List.range (ids.length + 1)).map (fun j => mkCand id (2 + j))).Nodup :=
      (List.nodup_range _).map hinj
    have hsub : ((List.range (ids.length + 1)).map (fun j => mkCand id (2 + j))) ⊆ ids := by
      intro x hx
      simp only [List.mem_map, List.mem_range] at hx
      obtain ⟨j, hj, rfl⟩ := hx
      exact hall j hj
    have hle := (hnd.subperm hsub).length_le
    simp at hle

theorem findFresh_not_mem {ids : List String} {id : String} :
    ∀ fuel n c, findFresh ids id n fuel = some c → c ∉ ids := by
  intro fuel
  induction fuel with
  | zero => intro n c h; simp [findFresh] at h
  | succ f ihf =>
    intro n c h
    by_cases hc : mkCand id n ∈ ids
    · simp only [findFresh, hc, if_pos] at h
      exact ihf _ _ h
    · simp [findFresh, hc] at h
      subst h
      exact hc

theorem generateHeadingId_spec (ids : List String) (heading : String) :
    ∃ id, generateHeadingId ids heading = some (id, id :: ids) ∧ id ∉ ids := by
  by_cases hmem : normalizeHeading heading ∈ ids
  · obtain ⟨c, hc⟩ := @findFresh_some ids (normalizeHeading heading)
    refine ⟨c, ?_, findFresh_not_mem _ _ _ hc⟩
    simp [generateHeadingId, hmem, hc]
  · exact ⟨normalizeHeading heading, by simp [generateHeadingId, hmem], hmem⟩

theorem allocIds_spec :
    ∀ (texts : List String) (st : List String),
      ∃ ids st', allocIds st texts = some (ids, st') ∧ ids.Nodup ∧
        (∀ i ∈ ids, i ∉ st) ∧ ids.length = texts.length := by
  intro texts
  induction texts with
  | nil => intro st; exact ⟨[], st, rfl, List.nodup_nil, by simp, rfl⟩
  | cons t ts ih =>
    intro st
    obtain ⟨id, hgen, hnot⟩ := generateHeadingId_spec st t
    obtain ⟨ids, st', hrec, hnd, hfresh, hlen⟩ := ih (id :: st)
    refine ⟨id :: ids, st', ?_, ?_, ?_, by simp [hlen]⟩
    · simp only [allocIds, hgen, hrec]
    · exact List.nodup_cons.mpr ⟨fun hm => hfresh id hm (List.mem_cons_self _ _), hnd⟩
    · intro i hi
      rcases List.mem_cons.mp hi with h | h
      · subst h; exact hnot
      · exact fun hst => hfresh i h (List.mem_cons_of_mem _ hst)

/-! ## The image-paragraph classifier matches its stream-level contract -/

theorem lookaheadN_combined :
    ∀ (iter queue : List Event) (n : Nat),
      (lookaheadN iter queue n).2 ++ (lookaheadN iter queue n).1 = queue ++ iter := by
  intro iter
  induction iter with
  | nil =>
    intro queue n
    simp [lookaheadN]
  | cons e rest ih =>
    intro queue n
    rw [lookaheadN]
    split
    · simp
    · rw [ih (queue ++ [e]) n]
      simp

theorem lookaheadN_enough :
    ∀ (iter queue : List Event) (n : Nat),
      n ≤ (lookaheadN iter queue n).2.length ∨ (lookaheadN iter queue n).1 = [] := by
  intro iter
  induction iter with
  | nil =>
    intro queue n
    right
    rfl
  | cons e rest ih =>
    intro queue n
    rw [lookaheadN]
    split
    · left; assumption
    · exact ih (queue ++ [e]) n

theorem exists_cons5 (l : List Event) (h : 5 ≤ l.length) :
    ∃ a b c d e t, l = a :: b :: c :: d :: e :: t := by
  rcases l with _ | ⟨a, _ | ⟨b, _ | ⟨c, _ | ⟨d, _ | ⟨e, t⟩⟩⟩⟩⟩
  · exfalso; simp at h
  · exfalso; simp at h
  · exfalso; simp at h
  · exfalso; simp at h
  · exfalso; simp at h
  · exact ⟨a, b, c, d, e, t, rfl⟩

theorem stepSpec_none {l : List Event} (h : stepSpec l = none) : l = [] := by
  unfold stepSpec at h
  split at h
  · rfl
  · exact absurd h (by simp)
  · exact absurd h (by simp)

theorem stepSpec_shrinks {l : List Event} {eb : Event × Bool} {rest : List Event}
    (h : stepSpec l = some (eb, rest)) : rest.length < l.length := by
  unfold stepSpec at h
  split at h
  · exact absurd h (by simp)
  · injection h with h'
    injection h' with h1 h2
    subst h2
    simp
  · injection h with h'
    injection h' with h1 h2
    subst h2
    simp

theorem imageSpec_step {l : List Event} {eb : Event × Bool} {rest : List Event}
    (h : stepSpec l = some (eb, rest)) : imageSpec l = eb :: imageSpec rest := by
  unfold stepSpec at h
  split at h
  · exact absurd h (by simp)
  · injection h with h'
    injection h' with h1 h2
    subst h1
    subst h2
    simp [imageSpec]
  · rename_i x xs hnotpat
    injection h with h'
    injection h' with h1 h2
    subst h1
    subst h2
    conv_lhs => rw [imageSpec.eq_def]
    split
    · rename_i heq
      exfalso
      injection heq with he1 he2
      rename_i lt d t txt lt₂ d₂ t₂ r
      exact hnotpat lt d t txt lt₂ d₂ t₂ r he1 he2
    · rename_i y ys heq
      injection heq with he1 he2
      subst he1
      subst he2
      rfl
    · rename_i heq
      exact absurd heq (by simp)

theorem filterNext_combined (s : FilterState) :
    (filterNext s).map (fun x => (x.1, x.2.combined)) = stepSpec s.combined := by
  rcases hla : lookaheadN s.iter s.queue 5 with ⟨i', q'⟩
  have hc := lookaheadN_combined s.iter s.queue 5
  rw [hla] at hc
  have he := lookaheadN_enough s.iter s.queue 5
  rw [hla] at he
  have hcomb : s.combined = q' ++ i' := by rw [FilterState.combined, ← hc]
  rw [hcomb]
  unfold filterNext
  rw [hla]
  rcases he with he5 | hnil
  · obtain ⟨a, b, c, d, e, t, rfl⟩ := exists_cons5 q' he5
    simp only [List.cons_append]
    split
    · rename_i heq
      exact absurd (congrArg Prod.snd heq) (by simp)
    · rename_i heq
      injection heq with h1 h2
      subst h1
      simp only [List.cons.injEq] at h2
      obtain ⟨ha, hb, hcc, hd, hee, ht⟩ := h2
      subst ha; subst hb; subst hcc; subst hd; subst hee; subst ht
      simp [stepSpec, FilterState.combined]
    · rename_i pairv iter0 first0 qrest0 hnotpat heq
      injection heq with h1 h2
      subst h1
      injection h2 with g1 g2
      subst g1
      subst g2
      conv_rhs => rw [stepSpec.eq_def]
      split
      · rename_i heq'
        exact absurd heq' (by simp)
      · rename_i lt d tt txt lt₂ d₂ t₂ r heq'
        exfalso
        simp only [List.cons.injEq] at heq'
        obtain ⟨ha, hb, hcc, hd, hee, hr⟩ := heq'
        exact hnotpat lt d tt txt lt₂ d₂ t₂ t ha (by rw [hb, hcc, hd, hee])
      · rename_i y ys heq'
        injection heq' with g1 g2
        subst g1
        simp [FilterState.combined, g2]
  · subst hnil
    simp only [List.append_nil]
    split
    · rename_i heq
      injection heq with h1 h2
      subst h2
      rfl
    · rename_i heq
      injection heq with h1 h2
      subst h1
      subst h2
      simp [stepSpec, FilterState.combined]
    · rename_i pairv iter0 first0 qrest0 hnotpat heq
      injection heq with h1 h2
      subst h1
      subst h2
      conv_rhs => rw [stepSpec.eq_def]
      split
      · rename_i heq'
        exact absurd heq' (by simp)
      · rename_i lt d tt txt lt₂ d₂ t₂ r heq'
        exfalso
        simp only [List.cons.injEq] at heq'
        obtain ⟨ha, hrest⟩ := heq'
        exact hnotpat lt d tt txt lt₂ d₂ t₂ r ha hrest
      · rename_i y ys heq'
        injection heq' with g1 g2
        subst g1
        simp [FilterState.combined, g2]

theorem filterRunF_eq_imageSpec :
    ∀ (n : Nat) (s : FilterState), s.combined.length < n →
      filterRunF n s = imageSpec s.combined := by
  intro n
  induction n with
  | zero => intro s h; omega
  | succ n ih =>
    intro s h
    have hbisim := filterNext_combined s
    cases hnext : filterNext s with
    | none =>
      simp only [filterRunF, hnext]
      rw [hnext] at hbisim
      simp only [Option.map_none'] at hbisim
      rw [stepSpec_none hbisim.symm]
      rfl
    | some val =>
      obtain ⟨⟨ev, bb⟩, s'⟩ := val
      simp only [filterRunF, hnext]
      rw [hnext] at hbisim
      simp only [Option.map_some'] at hbisim
      have hstep : stepSpec s.combined = some ((ev, bb), s'.combined) := hbisim.symm
      have hlt := stepSpec_shrinks hstep
      rw [imageSpec_step hstep]
      congr 1
      exact ih s' (by omega)

/-! ## Helper lemmas for the template engine claims -/

theorem findFresh_shape {ids : List String} {id : String} :
    ∀ fuel n c, findFresh ids id n fuel = some c → ∃ m, n ≤ m ∧ c = mkCand id m := by
  intro fuel
  induction fuel with
  | zero => intro n c h; simp [findFresh] at h
  | succ f ihf =>
    intro n c h
    by_cases hc : mkCand id n ∈ ids
    · simp only [findFresh, hc, if_pos] at h
      obtain ⟨m, hm, rfl⟩ := ihf _ _ h
      exact ⟨m, by omega, rfl⟩
    · simp [findFresh, hc] at h
      exact ⟨n, le_refl n, h.symm⟩

theorem tocGo_filter (maxDepth : Nat) :
    ∀ (toc : List (String × Nat)) (cur : Nat),
      tocGo maxDepth toc cur = tocGo maxDepth (toc.filter (fun e => e.2 ≤ maxDepth)) cur := by
  intro toc
  induction toc with
  | nil => intro cur; rfl
  | cons e rest ih =>
    intro cur
    obtain ⟨heading, depth⟩ := e
    by_cases hd : maxDepth < depth
    · have hfil : decide (((heading, depth) : String × Nat).2 ≤ maxDepth) = false := by
        simp
        omega
      rw [List.filter_cons, hfil]
      simp only [Bool.false_eq_true, if_neg, not_false_iff]
      conv_lhs => rw [tocGo]
      rw [if_pos hd]
      exact ih cur
    · have hfil : decide (((heading, depth) : String × Nat).2 ≤ maxDepth) = true := by
        simp
        omega
      rw [List.filter_cons, hfil]
      simp only [if_pos]
      conv_lhs => rw [tocGo]
      conv_rhs => rw [tocGo]
      rw [if_neg hd, if_neg hd, ih depth]

theorem foldl_filter_if {α β : Type} (p : α → Bool) (f : β → α → β) :
    ∀ (l : List α) (acc : β),
      l.foldl (fun acc x => if p x then f acc x else acc) acc = (l.filter p).foldl f acc := by
  intro l
  induction l with
  | nil => intro acc; rfl
  | cons x xs ih =>
    intro acc
    by_cases hx : p x
    · simp [List.filter_cons, hx, List.foldl_cons, ih]
    · simp [List.filter_cons, hx, List.foldl_cons, ih]

theorem pairwise_orderedInsert (r : α → α → Prop) [DecidableRel r] (r' : α → α → Prop)
    (hr : ∀ a b, r a b → r' a b) (hnr : ∀ a b, ¬ r a b → r' b a)
    (htrans : ∀ a b c, r' a b → r' b c → r' a c) (x : α) :
    ∀ l : List α, l.Pairwise r' → (List.orderedInsert r x l).Pairwise r' := by
  intro l
  induction l with
  | nil => intro _; simp
  | cons y ys ih =>
    intro hl
    rw [List.orderedInsert]
    split
    · rename_i hxy
      refine List.pairwise_cons.mpr ⟨?_, hl⟩
      intro z hz
      rcases List.mem_cons.mp hz with rfl | hz'
      · exact hr x z hxy
      · exact htrans x y z (hr x y hxy) ((List.pairwise_cons.mp hl).1 z hz')
    · rename_i hxy
      refine List.pairwise_cons.mpr ⟨?_, ih (List.pairwise_cons.mp hl).2⟩
      intro z hz
      rcases (List.mem_orderedInsert r).mp hz with rfl | hz'
      · exact hnr _ _ hxy
      · exact (List.pairwise_cons.mp hl).1 z hz'

theorem pairwise_insertionSort (r : α → α → Prop) [DecidableRel r] (r' : α → α → Prop)
    (hr : ∀ a b, r a b → r' a b) (hnr : ∀ a b, ¬ r a b → r' b a)
    (htrans : ∀ a b c, r' a b → r' b c → r' a c) :
    ∀ l : List α, (List.insertionSort r l).Pairwise r' := by
  intro l
  induction l with
  | nil => simp
  | cons x xs ih =>
    rw [List.insertionSort]
    exact pairwise_orderedInsert r r' hr hnr htrans x _ ih

theorem evalRule_include_fail (root : List String) (md : Post) (files : List Post)
    (css : List String) (p : String) (hpath : md.path ≠ []) :
    evalRule root md files css (fun _ => none) (.Include p) =
      .ok (none, [.includeFailed]) := by
  by_cases hpre : startsWithSlash p = true
  · simp [evalRule, includeValue, getAbsPath, hpre]
  · cases hmd : md.path with
    | nil => exact absurd hmd hpath
    | cons a as => simp [evalRule, includeValue, getAbsPath, hpre, hmd]

theorem applyGo_includes_fail (root : List String) (md : Post) (files : List Post)
    (css : List String) (hpath : md.path ≠ []) :
    ∀ (reps : List Replacement) (html : List Char),
      (∀ r ∈ reps, ∃ p, r.rule = .Include p) →
      applyGo root md files css (fun _ => none) reps html =
        .ok (html, List.replicate reps.length .includeFailed) := by
  intro reps
  induction reps with
  | nil => intro html _; rfl
  | cons r rest ih =>
    intro html hall
    obtain ⟨p, hp⟩ := hall r (List.mem_cons_self _ _)
    have hinc := evalRule_include_fail root md files css p hpath
    rw [← hp] at hinc
    have hrest := ih html (fun r' hr' => hall r' (List.mem_cons_of_mem _ hr'))
    simp [applyGo, hinc, hrest, List.replicate]

theorem metaSort_r_imp (k : String) (a b : Post)
    (h : sortCmp (.Meta k) true a b ≠ .gt) :
    (metaGet a.meta k).isSome = true → (metaGet b.meta k).isSome = true := by
  intro ha
  cases hma : metaGet a.meta k with
  | none => simp [hma] at ha
  | some va =>
    cases hmb : metaGet b.meta k with
    | none =>
      exfalso
      exact h (by simp [sortCmp, cmpPostsKey, optionCmp, hma, hmb])
    | some vb => simp [hmb]

theorem metaSort_nr_imp (k : String) (a b : Post)
    (h : ¬ (sortCmp (.Meta k) true a b ≠ .gt)) :
    (metaGet b.meta k).isSome = true → (metaGet a.meta k).isSome = true := by
  have hgt : sortCmp (.Meta k) true a b = .gt := not_not.mp h
  intro hb
  cases hma : metaGet a.meta k with
  | some va => simp [hma]
  | none =>
    exfalso
    cases hmb : metaGet b.meta k with
    | none => simp [sortCmp, cmpPostsKey, optionCmp, hma, hmb] at hgt
    | some vb => simp [sortCmp, cmpPostsKey, optionCmp, hma, hmb] at hgt

/-! ## The claims -/

/-- C1: for every sequence of heading texts processed within a single
render pass, the allocator (`generate_heading_id` starting from the fresh
empty identifier set of `HtmlWriter::new`) issues one identifier per
heading, the issued identifiers are pairwise distinct, and running the
same sequence again from a fresh allocator state yields the identical
result. -/
theorem C1_heading_ids_unique_and_deterministic (texts : List String) :
    (∃ ids st, allocIds [] texts = some (ids, st) ∧ ids.Nodup ∧ ids.length = texts.length) ∧
      allocIds [] texts = allocIds [] texts := by
  obtain ⟨ids, st, h1, h2, _, h4⟩ := allocIds_spec texts []
  exact ⟨⟨ids, st, h1, h2, h4⟩, rfl⟩

/-- C2 counterexample: on the code path the template engine's `Contents`
rule uses (the `HyperlinkHeadings` adaptor), two headings with identical
text `x` yield identifiers `x` and `x2` — the counter is appended with no
separator — not `x_2` as the claim states for every allocating path. -/
theorem C2_collision_suffix_counterexample :
    hyperlinkHeadings
        [.Start (.Heading 1), .Text "x", .End (.Heading 1),
         .Start (.Heading 1), .Text "x", .End (.Heading 1)] =
      some [.Html "<h1 id=\"x\">", .Text "x", .End (.Heading 1),
            .Html "<h1 id=\"x2\">", .Text "x", .End (.Heading 1)] ∧
    Event.Html "<h1 id=\"x_2\">" ∉
      ([.Html "<h1 id=\"x\">", .Text "x", .End (.Heading 1),
        .Html "<h1 id=\"x2\">", .Text "x", .End (.Heading 1)] : List Event) := by
  exact ⟨rfl, by decide⟩

/-- C2 amended: `HtmlWriter::generate_heading_id` resolves collisions in
the format `<id>_<n>` with `n` starting at 2 (two `x` headings give `x`
and `x_2`), but the adaptor code path used by the `Contents` rule appends
the counter without the separator, giving `x` and `x2`. -/
theorem C2_collision_suffix_amended :
    (∀ (ids : List String) (heading : String), normalizeHeading heading ∈ ids →
      ∃ n st, 2 ≤ n ∧
        generateHeadingId ids heading = some (mkCand (normalizeHeading heading) n, st)) ∧
    allocIds [] ["x", "x"] = some (["x", "x_2"], ["x_2", "x"]) ∧
    hyperlinkHeadings
        [.Start (.Heading 1), .Text "x", .End (.Heading 1),
         .Start (.Heading 1), .Text "x", .End (.Heading 1)] =
      some [.Html "<h1 id=\"x\">", .Text "x", .End (.Heading 1),
            .Html "<h1 id=\"x2\">", .Text "x", .End (.Heading 1)] := by
  refine ⟨?_, rfl, rfl⟩
  intro ids heading hmem
  obtain ⟨c, hc⟩ := @findFresh_some ids (normalizeHeading heading)
  obtain ⟨m, hm, rfl⟩ := findFresh_shape _ _ _ hc
  refine ⟨m, mkCand (normalizeHeading heading) m :: ids, hm, ?_⟩
  simp [generateHeadingId, hmem, hc]

/-- C2 amended, witness: the collision format of the writer's allocator at
the concrete identifier set `["x"]` and heading `x`. -/
theorem C2_collision_suffix_amended_witness :
    ∃ n st, 2 ≤ n ∧
      generateHeadingId ["x"] "x" = some (mkCand (normalizeHeading "x") n, st) :=
  C2_collision_suffix_amended.1 ["x"] "x" (by decide)

/-- C3 counterexample: the `Contents` rule does not reproduce the HTML
renderer of `src/html.rs` — on a single `Hello` heading the two pipelines
disagree. -/
theorem C3_contents_renderer_counterexample :
    contentsValue [.Start (.Heading 1), .Text "Hello", .End (.Heading 1)] ≠
      pushHtml [.Start (.Heading 1), .Text "Hello", .End (.Heading 1)] := by
  intro h
  rw [show contentsValue [.Start (.Heading 1), .Text "Hello", .End (.Heading 1)] =
      Except.ok "<h1 id=\"hello\">Hello</h1>\n" from rfl] at h
  rw [show pushHtml [.Start (.Heading 1), .Text "Hello", .End (.Heading 1)] =
      Except.ok
        "<h1 class=\"title\" id=\"hello\"><a class=\"anchor\" href=\"#hello\">¶</a>Hello</h1>\n"
      from rfl] at h
  injection h with h'
  exact absurd h' (by decide)

/-- C3 amended: the `Contents` rule renders `post.markdown` through the
external library renderer wrapped in the `HyperlinkHeadings` adaptor,
which differs from the `src/html.rs` pipeline: the heading carries the
anchor id but neither the `title` class nor the pilcrow anchor link. -/
theorem C3_contents_renderer_amended :
    contentsValue [.Start (.Heading 1), .Text "Hello", .End (.Heading 1)] =
      .ok "<h1 id=\"hello\">Hello</h1>\n" ∧
    pushHtml [.Start (.Heading 1), .Text "Hello", .End (.Heading 1)] =
      .ok "<h1 class=\"title\" id=\"hello\"><a class=\"anchor\" href=\"#hello\">¶</a>Hello</h1>\n" :=
  ⟨rfl, rfl⟩

/-- C4: the image-paragraph classifier maps every event sequence to the
output prescribed by the spec: each exact start-paragraph, start-image,
text, end-image, end-paragraph shape loses its paragraph wrapper and has
its image start tagged standalone, every other event passes through
unchanged once, in order, tagged `false` — in particular events buffered
during a partial match are never dropped. -/
theorem C4_image_filter_matches_spec (events : List Event) :
    imageParagraphFilter events = imageSpec events := by
  unfold imageParagraphFilter
  have h := filterRunF_eq_imageSpec (events.length + 1) ⟨events, []⟩
    (by simp [FilterState.combined])
  simpa [FilterState.combined] using h

/-- C5 counterexample: on `[("A",1),("B",2),("C",1)]` with `max_depth = 2`
the `Toc` rule closes only back to depth 1 before `C`, producing
`<ul><li>A</li><ul><li>B</li></ul><li>C</li></ul>` — not the spec's quoted
markup, which closes fully and reopens a new list. -/
theorem C5_toc_markup_counterexample :
    tocValue [("A", 1), ("B", 2), ("C", 1)] 2 =
      "<ul><li>A</li><ul><li>B</li></ul><li>C</li></ul>" ∧
    tocValue [("A", 1), ("B", 2), ("C", 1)] 2 ≠
      "<ul><li>A</li><ul><li>B</li></ul></ul><ul><li>C</li></ul>" := by
  exact ⟨rfl, by decide⟩

/-- C5 amended: the `Toc` walk keeps a depth counter, opens and closes one
`<ul>` per level on depth changes, skips entries deeper than `max_depth`
without affecting the counter (dropping them is invisible to the output),
and closes all open lists at the end; on `[("A",1),("B",2),("C",1)]` with
`max_depth = 2` it closes back to depth 1 before `C` — keeping `C` in the
same outer list — and yields
`<ul><li>A</li><ul><li>B</li></ul><li>C</li></ul>`. -/
theorem C5_toc_amended :
    (∀ (toc : List (String × Nat)) (d : Nat),
      tocValue toc d = tocValue (toc.filter (fun e => e.2 ≤ d)) d) ∧
    tocValue [("A", 1), ("B", 2), ("C", 1)] 2 =
      "<ul><li>A</li><ul><li>B</li></ul><li>C</li></ul>" := by
  refine ⟨?_, rfl⟩
  intro toc d
  exact tocGo_filter d toc 0

/-- C6 counterexample: an `Include` of an unreadable path leaves the
directive's original marker text in the output — the apply result is the
unchanged template, not the template with the marker removed. -/
theorem C6_include_missing_counterexample :
    (HtmlTemplate.new "<p><!--P/INCLUDE style.css/P--></p>").1.apply ["root"] samplePost [] []
        (fun _ => none) =
      .ok ("<p><!--P/INCLUDE style.css/P--></p>", [.includeFailed]) ∧
    "<p><!--P/INCLUDE style.css/P--></p>" ≠ "<p></p>" := by
  exact ⟨rfl, by decide⟩

/-- C6 amended: for every parsed template all of whose directives are
`Include` rules, a post with a parent-resolvable path and a file system on
which every read fails, `apply` returns `Ok`, logs one note per directive,
and leaves the output identical to the original template text (each
directive's marker text stays in place, contributing no replacement
content). -/
theorem C6_include_missing_amended (t : HtmlTemplate) (root : List String) (md : Post)
    (files : List Post) (css : List String) (hpath : md.path ≠ [])
    (hrules : ∀ r ∈ t.replacements, ∃ p, r.rule = .Include p) :
    t.apply root md files css (fun _ => none) =
      .ok (t.html, List.replicate t.replacements.length Note.includeFailed) := by
  have hmem : ∀ r ∈ (sortReplacements t.replacements).reverse, ∃ p, r.rule = .Include p := by
    intro r hr
    exact hrules r (((List.perm_insertionSort _ t.replacements).mem_iff).mp
      (List.mem_reverse.mp hr))
  have hlen : (sortReplacements t.replacements).reverse.length = t.replacements.length := by
    rw [List.length_reverse]
    exact (List.perm_insertionSort _ t.replacements).length_eq
  have h := applyGo_includes_fail root md files css hpath _ t.html.data hmem
  simp [HtmlTemplate.apply, h, hlen]

/-- C6 amended, witness: the general statement applied to the concrete
one-include template, post and all-failing file system. -/
theorem C6_include_missing_amended_witness :
    (HtmlTemplate.new "<p><!--P/INCLUDE style.css/P--></p>").1.apply ["root"] samplePost [] []
        (fun _ => none) =
      .ok ((HtmlTemplate.new "<p><!--P/INCLUDE style.css/P--></p>").1.html,
        List.replicate
          (HtmlTemplate.new "<p><!--P/INCLUDE style.css/P--></p>").1.replacements.length
          Note.includeFailed) := by
  apply C6_include_missing_amended
  · intro h
    simp [samplePost] at h
  · intro r hr
    rw [show (HtmlTemplate.new "<p><!--P/INCLUDE style.css/P--></p>").1.replacements =
        [⟨3, 31, .Include "style.css"⟩] from rfl] at hr
    simp at hr
    subst hr
    exact ⟨"style.css", rfl⟩

/-- C7: the claim that template application never panics is right as a
specification (spec §7) but wrong of the code: when an `Include` directive
resolves to a readable file whose path has no extension,
`path.extension().unwrap()` in `HtmlTemplate::apply` panics.  Evaluating
the model at such an input yields the panic marker. -/
theorem C7_include_extension_panic :
    (HtmlTemplate.new "<!--P/INCLUDE foo/P-->").1.apply ["root"] samplePost [] []
        (fun _ => some "file contents") = .error .panic := rfl

/-- C8: template application is deterministic — applying the same parsed
template to the same post, post list, CSS list and file system twice
yields byte-identical output; in the embedding the replacement ranges are
read from the immutable parsed template and re-sorted against a fresh copy
of the original text on every call, so the second application observes
exactly the state the first did. -/
theorem C8_apply_deterministic (t : HtmlTemplate) (root : List String) (md : Post)
    (files : List Post) (css : List String) (fs : List String → Option String) :
    t.apply root md files css fs = t.apply root md files css fs := rfl

/-- C9: listing emission.  (1) Sorting by title descending over posts
titled B, A, C (all under the directive path) emits links in order C, B,
A.  (2) With no sort, the emitted entries are exactly the input post list
restricted, in order, to the posts whose source path is prefixed by the
resolved directive path.  (3) Sorting ascending by an arbitrary metadata
key never places a post that has the key before one that lacks it. -/
theorem C9_listing_order :
    (listingValue ["root"] samplePost
        [listedPost "B" "b.md" "/blog/b", listedPost "A" "a.md" "/blog/a",
         listedPost "C" "c.md" "/blog/c"] "/blog" (some (.Title, false)) =
      .ok ("<ul><li><a href=\"c\">C</a></li><li><a href=\"b\">B</a></li>" ++
        "<li><a href=\"a\">A</a></li></ul>")) ∧
    (∀ (root : List String) (md : Post) (files : List Post) (pathStr : String)
        (path : List String),
      getAbsPath root md.path pathStr = .ok path →
      listingValue root md files pathStr none =
        .ok ("<ul>" ++
          (files.filter (fun f => path.isPrefixOf f.path)).foldl
            (fun acc f => acc ++ listingEntry md f) "" ++ "</ul>")) ∧
    (∀ (k : String) (files : List Post),
      (listingSortedPosts (.Meta k) true files).Pairwise
        (fun a b => (metaGet a.meta k).isSome = true → (metaGet b.meta k).isSome = true)) := by
  refine ⟨rfl, ?_, ?_⟩
  · intro root md files pathStr path habs
    simp only [listingValue, habs]
    rw [foldl_filter_if (fun f => path.isPrefixOf f.path) (fun acc f => acc ++ listingEntry md f)]
  · intro k files
    exact pairwise_insertionSort _ _
      (fun a b => metaSort_r_imp k a b)
      (fun a b => metaSort_nr_imp k a b)
      (fun a b c hab hbc ha => hbc (hab ha)) files

/-- C9 witness: the no-sort order statement applied at a concrete root,
post, listing path and single-post list. -/
theorem C9_listing_order_witness :
    listingValue ["root"] samplePost [listedPost "B" "b.md" "/blog/b"] "/blog" none =
      .ok ("<ul>" ++
        ([listedPost "B" "b.md" "/blog/b"].filter
          (fun f => ["root", "blog"].isPrefixOf f.path)).foldl
          (fun acc f => acc ++ listingEntry samplePost f) "" ++ "</ul>") :=
  C9_listing_order.2.1 ["root"] samplePost [listedPost "B" "b.md" "/blog/b"] "/blog"
    ["root", "blog"] rfl

/-- C10: a `TOC` directive whose depth argument does not parse as a number
is neither rejected nor left as literal text: `PreprocessorRule::new` logs
a note and yields `Toc` with depth `u8::MAX` (255) — the same as an absent
argument — the parser records the replacement, and apply substitutes the
full-depth table of contents. -/
theorem C10_toc_depth_fallback :
    PreprocessorRule.new "TOC abc" = (some (.Toc 255), [.depthParseFailed]) ∧
    PreprocessorRule.new "TOC" = (some (.Toc 255), []) ∧
    (HtmlTemplate.new "<!--P/TOC abc/P-->").1.replacements = [⟨0, 18, .Toc 255⟩] ∧
    (HtmlTemplate.new "<!--P/TOC abc/P-->").1.apply ["root"] samplePost [] []
        (fun _ => none) =
      .ok ("<ul><li>A</li><ul><li>B</li></ul><li>C</li></ul>", []) :=
  ⟨rfl, rfl, rfl, rfl⟩

end Pagong
